import Mathlib

/-!
Verification of the test-execution and result-classification pipeline of the
`self-testing-github-action` repository, against a shallow embedding of the
JavaScript source into Lean.

Strings are modelled as `List Char` (Lean `String` wraps exactly that list).
JavaScript regular-expression behaviour is embedded by hand per pattern,
following the leftmost-match / greedy-with-backtracking semantics of the
concrete regexes appearing in the source.  JavaScript `\s`, `\d`,
`[a-zA-Z0-9]`, `.` (no line terminators) and ASCII `toLowerCase` are embedded
via code-point predicates below.
-/

/-- Code points matched by JavaScript `\s` (whitespace, as used by
`String.prototype.trim` as well). -/
def isJsWs (c : Char) : Bool :=
  let n := c.toNat
  n = 9 || n = 10 || n = 11 || n = 12 || n = 13 || n = 32 || n = 160 ||
  n = 5760 || (8192 ≤ n && n ≤ 8202) || n = 8232 || n = 8233 || n = 8239 ||
  n = 8287 || n = 12288 || n = 65279

/-- Code points matched by JavaScript `[a-zA-Z0-9]`. -/
def isAlnum (c : Char) : Bool :=
  let n := c.toNat
  (48 ≤ n && n ≤ 57) || (65 ≤ n && n ≤ 90) || (97 ≤ n && n ≤ 122)

/-- Code points matched by JavaScript `\d`. -/
def isDigitC (c : Char) : Bool :=
  let n := c.toNat
  48 ≤ n && n ≤ 57

/-- Line terminators, i.e. the code points NOT matched by JavaScript `.`. -/
def isLineTerm (c : Char) : Bool :=
  let n := c.toNat
  n = 10 || n = 13 || n = 8232 || n = 8233

/-- ASCII lower-casing, the fragment of `toLowerCase` exercised by the
source's fixed ASCII phrase lists. -/
def jsLower (c : Char) : Char :=
  if 65 ≤ c.toNat ∧ c.toNat ≤ 90 then Char.ofNat (c.toNat + 32) else c

/-- Case-sensitive "the pattern `pat` occurs at the head of `s`". -/
def listStarts : List Char → List Char → Bool
  | [], _ => true
  | _ :: _, [] => false
  | p :: ps, c :: cs => (p = c : Bool) && listStarts ps cs

/-- Case-insensitive (regex `i` flag) "the pattern occurs at the head". -/
def ciStarts : List Char → List Char → Bool
  | [], _ => true
  | _ :: _, [] => false
  | p :: ps, c :: cs => (jsLower p = jsLower c : Bool) && ciStarts ps cs

/-- Case-sensitive substring containment (JavaScript `String.includes`). -/
def containsSub : List Char → List Char → Bool
  | [], pat => pat.isEmpty
  | c :: cs, pat => listStarts pat (c :: cs) || containsSub cs pat

/-- Case-insensitive substring containment (regex `i` search). -/
def containsCI : List Char → List Char → Bool
  | [], pat => pat.isEmpty
  | c :: cs, pat => ciStarts pat (c :: cs) || containsCI cs pat

/-- JavaScript `String.prototype.trim`. -/
def jsTrim (l : List Char) : List Char :=
  ((l.dropWhile isJsWs).reverse.dropWhile isJsWs).reverse

/-- JavaScript `String.prototype.split("\n")` over the character list; an
empty input yields one empty line, a trailing newline yields a trailing
empty line. -/
def splitNl : List Char → List (List Char)
  | [] => [[]]
  | c :: cs =>
    match splitNl cs with
    | [] => [[]]
    | h :: t => if c = '\n' then [] :: h :: t else (c :: h) :: t

/-- JavaScript `String.includes` on Lean strings. -/
def jsIncludes (s sub : String) : Bool := containsSub s.data sub.data

/-- ASCII `toLowerCase` on Lean strings. -/
def jsToLowerStr (s : String) : String := String.mk (s.data.map jsLower)

/-- JavaScript `String.length`: UTF-16 code units, so an astral code point
(U+10000 and above) counts as two. -/
def jsLen : List Char → Nat
  | [] => 0
  | c :: cs => (if 65536 ≤ c.toNat then 2 else 1) + jsLen cs

/-- JavaScript `String.substring(0, n)`: the first `n` UTF-16 code units.
When the boundary would split an astral code point JavaScript keeps the
unpaired high surrogate, which has no scalar representation; the model drops
that half-character (the only divergence, at exactly-boundary inputs). -/
def jsTakeUnits : Nat → List Char → List Char
  | _, [] => []
  | n, c :: cs =>
    let u := if 65536 ≤ c.toNat then 2 else 1
    if u ≤ n then c :: jsTakeUnits (n - u) cs else []

/-! ## Data model: test-case records (§3 of the spec) -/

/-- The fixed status set carried by extracted test cases. -/
inductive TestStatus
  | GENERATED
  | READY_TO_RUN
  | PASSED
  | FAILED
  | UNKNOWN
deriving DecidableEq

/-- One extracted test case (name, status, 1-based source line). -/
structure TestCase where
  name : String
  status : TestStatus
  lineNumber : Nat
deriving DecidableEq

/-! ## OutcomeClassifier, pass/fail contract
(`PRTestGenerator.determineTestSuccess`, src/unnamed/part_002 lines 721-760) -/

/-- The failure-phrase list of `determineTestSuccess`. -/
def failureIndicators : List String :=
  ["Test suite failed", "process.exit(1)", "All tests failed", "FAILED",
   "ERROR: Test"]

/-- The success-phrase list of `determineTestSuccess`. -/
def successIndicators : List String :=
  ["All tests completed successfully", "Tests passed", "SUCCESS",
   "Test completed"]

/-- Whether the (already lower-cased) combined output contains one of the
given indicators, each lower-cased before the containment check, exactly as
`indicators.some(i => output.includes(i.toLowerCase()))` does. -/
def hasIndicator (indicators : List String) (output : String) : Bool :=
  indicators.any fun i => jsIncludes output (jsToLowerStr i)

/-- `PRTestGenerator.determineTestSuccess(stdout, stderr, exitCode)`:
failure phrases beat success phrases beat the exit code. -/
def determineTestSuccess (stdout stderr : String) (exitCode : Int) : Bool :=
  let output := jsToLowerStr (stdout ++ stderr)
  if hasIndicator failureIndicators output then false
  else if hasIndicator successIndicators output then true
  else exitCode == 0

/-! ## SecretSanitizer (`PRTestGenerator.sanitizeOutput`,
src/unnamed/part_002 lines 827-840).

The two substitutions are `text.replace(/sk-[a-zA-Z0-9]{48}/g, ...)` and
`text.replace(/ANTHROPIC_API_KEY[=:]\s*[^\s]+/gi, ...)`; both are embedded
as leftmost, non-overlapping global replacement scans. -/

/-- Replacement text of the first substitution. -/
def redactedKey : List Char := "[API_KEY_REDACTED]".data

/-- Replacement text of the second substitution. -/
def akRedacted : List Char := "ANTHROPIC_API_KEY=[API_KEY_REDACTED]".data

/-- The pattern head of the second substitution, lower-cased. -/
def anthropicKeyChars : List Char := "anthropic_api_key".data

/-- Whether a 51-character window is a `sk-[a-zA-Z0-9]{48}` match. -/
def checkKey : List Char → Bool
  | c1 :: c2 :: c3 :: r =>
    (c1 = 's' : Bool) && (c2 = 'k' : Bool) && (c3 = '-' : Bool) &&
    (r.length == 48) && r.all isAlnum
  | _ => false

/-- Global replacement scan for `/sk-[a-zA-Z0-9]{48}/g`. -/
def replaceSk : List Char → List Char
  | [] => []
  | c :: cs =>
    if checkKey ((c :: cs).take 51) then
      redactedKey ++ replaceSk ((c :: cs).drop 51)
    else c :: replaceSk cs
termination_by l => l.length
decreasing_by
  all_goals simp [List.length_drop]
  all_goals omega

/-- Head-shape check of the `ANTHROPIC_API_KEY[=:]` part of the pattern:
a case-insensitive `ANTHROPIC_API_KEY` head followed by `=` or `:`. -/
def akHeadOK (cs : List Char) : Bool :=
  ciStarts anthropicKeyChars cs &&
    (match (cs.drop 17).head? with
     | some c => (c = '=' : Bool) || (c = ':' : Bool)
     | none => false)

/-- Attempted match of `/ANTHROPIC_API_KEY[=:]\s*[^\s]+/i` at the head of the
input; on success, returns the number of characters the match consumes beyond
the fixed 18-character `ANTHROPIC_API_KEY[=:]` head (i.e. the length of the
`\s*` run plus the length of the greedy `[^\s]+` run, both within the tail
`cs.drop 18`). -/
def akTail (cs : List Char) : Option Nat :=
  if akHeadOK cs then
    let r := cs.drop 18
    let w := (r.takeWhile isJsWs).length
    let n := ((r.drop w).takeWhile (fun x => !isJsWs x)).length
    if n = 0 then none else some (w + n)
  else none

/-- Global replacement scan for `/ANTHROPIC_API_KEY[=:]\s*[^\s]+/gi`. -/
def replaceAK : List Char → List Char
  | [] => []
  | c :: cs =>
    match akTail (c :: cs) with
    | some m => akRedacted ++ replaceAK ((c :: cs).drop (18 + m))
    | none => c :: replaceAK cs
termination_by l => l.length
decreasing_by
  all_goals simp [List.length_drop]
  all_goals omega

/-- `PRTestGenerator.sanitizeOutput`: the `if (!text) return text` guard
(an empty string is falsy) followed by the two key substitutions, in source
order.  No other shape — in particular no e-mail shape — is substituted. -/
def sanitizeOutput (text : String) : String :=
  if text.data.isEmpty then text
  else String.mk (replaceAK (replaceSk text.data))

/-- Scan predicate: some position of the input starts a `sk-…` match. -/
def hasSk : List Char → Bool
  | [] => false
  | c :: cs => checkKey ((c :: cs).take 51) || hasSk cs

/-- Matches of `sk-…` starting inside `a` when scanning `a ++ w`. -/
def skCross : List Char → List Char → Bool
  | [], _ => false
  | c :: a, w => checkKey ((c :: (a ++ w)).take 51) || skCross a w

/-- Scan predicate: some position starts an `ANTHROPIC_API_KEY…` match. -/
def hasAk : List Char → Bool
  | [] => false
  | c :: cs => (akTail (c :: cs)).isSome || hasAk cs

/-- Shape shared by `akRedacted` and by any text matching the
`ANTHROPIC_API_KEY` pattern: nine alphanumeric characters followed by a
non-alphanumeric one. -/
def p9seg (z : List Char) : Bool :=
  ((z.take 9).length == 9) && (z.take 9).all isAlnum &&
    (match z.drop 9 with
     | c :: _ => !isAlnum c
     | [] => false)

/-! ## OutcomeClassifier, test-case extraction
(`TestExecutor.parseTestCasesFromCode`, src/unnamed/part_004 lines 200-268).

Stage 1 embeds `line.match(/\/\/\s*(Test\s*\d*:?\s*(.+)|(\d+)\.\s*(.+))/i)`
applied to every line.  At a `//` position the regex engine takes the maximal
`\s*` run (giving characters back cannot help, since the alternatives need a
letter or a digit next), then tries the `Test…` alternative and then the
`(\d+)\.…` alternative.  `\s` matches line terminators but `.` does not, so
within an alternative the greedy `\s*`, `\d*`, `:?` quantifiers backtrack —
rightmost first, re-maximizing later quantifiers after each give-back —
until `(.+)` can start on a character that exists and is not one of the four
line terminators; the capture then runs greedily up to the next line
terminator.  `wsDot` reproduces this for a trailing `\s*(.+)`: when the
remainder is not all-whitespace the maximal `\s*` already leaves `(.+)` on a
non-space (hence non-terminator) character; when it is all-whitespace the
explored start positions decrease from the right, so the capture is the last
non-terminator character alone, if any. -/

/-- Greedy `(.+)` content from a position: the run of characters up to the
first line terminator. -/
def dotRun (l : List Char) : List Char :=
  l.takeWhile fun c => !isLineTerm c

/-- The last character that is not a line terminator, where a backtracking
`\s*` followed by `(.+)` lands inside an all-whitespace remainder. -/
def lastNonTerm (l : List Char) : Option Char :=
  (l.filter fun c => !isLineTerm c).getLast?

/-- Match of `\s*(.+)` at `l` with backtracking: `none` exactly when `l`
consists solely of line terminators (possibly none). -/
def wsDot (l : List Char) : Option (List Char) :=
  let s := l.dropWhile isJsWs
  if s.isEmpty then (lastNonTerm l).map (fun ch => [ch])
  else some (dotRun s)

/-- Capture of `(.+)` in `Test\s*\d*:?\s*(.+)` applied after the `Test`
head, `none` when the whole alternative fails.  If the remainder is all
whitespace only the `\s*` runs can consume it and the capture falls to the
last non-terminator character; otherwise the maximal `\s*`-then-`\d*` run is
taken, a present `:` is preferred, and the trailing `\s*(.+)` is `wsDot`.
When that fails (everything left is line terminators) the engine gives back
the `:` — or, with no `:`, the last digit — and `(.+)` restarts there. -/
def extractDescA (r2 : List Char) : Option (List Char) :=
  let s1 := r2.dropWhile isJsWs
  if s1.isEmpty then (lastNonTerm r2).map (fun ch => [ch])
  else
    let ds := s1.takeWhile isDigitC
    match s1.drop ds.length with
    | ':' :: s3 =>
      match wsDot s3 with
      | some cap => some cap
      | none => some (dotRun (':' :: s3))
    | s2 =>
      match wsDot s2 with
      | some cap => some cap
      | none =>
        if ds.isEmpty then none
        else some ((ds.getLast?.getD ' ') :: dotRun s2)

/-- The `Test\s*\d*:?\s*(.+)` alternative tried at position `r`. -/
def tryTestAlt (r : List Char) : Option (List Char) :=
  if ciStarts "test".data r then extractDescA (r.drop 4) else none

/-- The `(\d+)\.\s*(.+)` alternative tried at position `r`: giving digits
back to `\d+` can never help (`\.` would have to match a digit), so the
alternative stands or falls with `wsDot` after the dot. -/
def tryNumAlt (r : List Char) : Option (List Char) :=
  let ds := r.takeWhile isDigitC
  if ds.isEmpty then none
  else
    match r.drop ds.length with
    | c :: r2 => if c = '.' then wsDot r2 else none
    | [] => none

/-- Attempted match of the whole line regex at one position. -/
def tryCommentAt (cs : List Char) : Option (List Char) :=
  match cs with
  | '/' :: '/' :: r =>
    let r1 := r.dropWhile isJsWs
    (tryTestAlt r1).orElse fun _ => tryNumAlt r1
  | _ => none

/-- Leftmost match of the line regex: the captured description of the first
position at which the pattern matches, if any. -/
def lineMatch : List Char → Option (List Char)
  | [] => none
  | c :: cs => (tryCommentAt (c :: cs)).orElse fun _ => lineMatch cs

/-- Stage 1: one GENERATED case per line whose regex match yields a trimmed
description longer than 5 UTF-16 units; `lineNumber` is the 1-based line. -/
def lineCases (cs : List Char) : List TestCase :=
  ((splitNl cs).enum).filterMap fun p =>
    match lineMatch p.2 with
    | some d =>
      if 5 < jsLen (jsTrim d) then
        some { name := String.mk (jsTrim d), status := .GENERATED,
               lineNumber := p.1 + 1 }
      else none
    | none => none

/-- Scan for `/\/\*[\s\S]*?\*\//g`: collect the non-overlapping lazy block
comments left to right.  The state is `none` outside a candidate comment and
`some acc` (reversed body) after an unmatched `/*`; a candidate left open at
the end of the input matches nothing, exactly as the regex fails and no later
start position can succeed without a closing `*/`. -/
def sbGo : Option (List Char) → List Char → List (List Char)
  | none, [] => []
  | some _, [] => []
  | none, '/' :: '*' :: r => sbGo (some []) r
  | none, _ :: r => sbGo none r
  | some acc, '*' :: '/' :: r =>
    ('/' :: '*' :: (acc.reverse ++ ['*', '/'])) :: sbGo none r
  | some acc, c :: r => sbGo (some (c :: acc)) r

/-- All block comments of the input, in order (`testCode.match(...) || []`). -/
def scanBlocks (cs : List Char) : List (List Char) := sbGo none cs

/-- `comment.replace(/\/\*|\*\//g, "")`: drop every `/*` and `*/` pair of
characters, leftmost first. -/
def stripBD : List Char → List Char
  | '/' :: '*' :: r => stripBD r
  | '*' :: '/' :: r => stripBD r
  | c :: r => c :: stripBD r
  | [] => []

/-- Stage 2: one GENERATED case per block comment whose cleaned text is
longer than 20 UTF-16 units and has no `TODO`; names are truncated at 100
UTF-16 units with a `...` marker; `lineNumber` is the comment's array index
plus one (not a source line). -/
def blockCases (cs : List Char) : List TestCase :=
  ((scanBlocks cs).enum).filterMap fun p =>
    let clean := jsTrim (stripBD p.2)
    if 20 < jsLen clean ∧ ¬ (containsSub clean "TODO".data = true) then
      some { name := String.mk (jsTakeUnits 100 clean ++
               (if 100 < jsLen clean then "...".data else [])),
             status := .GENERATED, lineNumber := p.1 + 1 }
    else none

/-- The single-quote and double-quote characters of the `['"]` class. -/
def quoteS : Char := Char.ofNat 39

/-- Double quote of the `['"]` class. -/
def quoteD : Char := Char.ofNat 34

/-- `/agent\.navigate\(/gi` has at least one match. -/
def hasNavigateMarker (cs : List Char) : Bool :=
  containsCI cs "agent.navigate(".data

/-- Attempted match of `await\s+agent\.act\(['"]` at the head, with the
per-pattern condition `inner` applied to the rest of the quoted line (the
span `.*` can cover, i.e. up to the first line terminator). -/
def actMarkerAt (inner : List Char → Bool) (cs : List Char) : Bool :=
  if ciStarts "await".data cs then
    let r := cs.drop 5
    let w := r.takeWhile isJsWs
    if w.isEmpty then false
    else
      let r2 := r.drop w.length
      if ciStarts "agent.act(".data r2 then
        match r2.drop 10 with
        | q :: r4 =>
          if q = quoteS ∨ q = quoteD then
            inner (r4.takeWhile fun c => !isLineTerm c)
          else false
        | [] => false
      else false
  else false

/-- Whole-input search for an `await\s+agent\.act\(['"]…` marker. -/
def actMarkerScan (inner : List Char → Bool) : List Char → Bool
  | [] => false
  | c :: cs => actMarkerAt inner (c :: cs) || actMarkerScan inner cs

/-- `.*click.*button` within a line segment: a `click` occurrence followed
(at or after its end) by a `button` occurrence, case-insensitively. -/
def clickThenButton : List Char → Bool
  | [] => false
  | c :: cs =>
    (ciStarts "click".data (c :: cs) &&
      containsCI ((c :: cs).drop 5) "button".data) || clickThenButton cs

/-- `/await\s+agent\.act\(['"].*navigate/gi` has at least one match. -/
def hasActNavigate (cs : List Char) : Bool :=
  actMarkerScan (fun seg => containsCI seg "navigate".data) cs

/-- `/await\s+agent\.act\(['"].*click.*button/gi` has at least one match. -/
def hasActClickButton (cs : List Char) : Bool :=
  actMarkerScan clickThenButton cs

/-- `/await\s+agent\.act\(['"].*verify/gi` has at least one match. -/
def hasActVerify (cs : List Char) : Bool :=
  actMarkerScan (fun seg => containsCI seg "verify".data) cs

/-- Stage 3: one `Test Scenario N` case per structural pattern (of the fixed
four) that matches somewhere in the code, numbered in pattern order; the
counter only ranges over 1..4, rendered as a single digit. -/
def markerCases (cs : List Char) : List TestCase :=
  let flags := [hasNavigateMarker cs, hasActNavigate cs,
                hasActClickButton cs, hasActVerify cs]
  ((flags.filter fun b => b).enum).map fun p =>
    { name := String.mk ("Test Scenario ".data ++ [Char.ofNat (49 + p.1)]),
      status := .GENERATED, lineNumber := 1 }

/-- Stage 4 fallback case. -/
def fallbackCase : TestCase :=
  { name := "Generated test execution", status := .GENERATED, lineNumber := 1 }

/-- `TestExecutor.parseTestCasesFromCode` (src/unnamed/part_004 lines
200-268): the cascade of the four stages, each tried only if all previous
stages produced nothing. -/
def parseTestCasesFromCode (testCode : String) : List TestCase :=
  let fromLines := lineCases testCode.data
  if fromLines.isEmpty then
    let fromBlocks := blockCases testCode.data
    if fromBlocks.isEmpty then
      let fromMarkers := markerCases testCode.data
      if fromMarkers.isEmpty then [fallbackCase] else fromMarkers
    else fromBlocks
  else fromLines

/-! ## Output-driven status update
(`TestExecutor.parseTestResults`, src/unnamed/part_004 lines 169-198). -/

/-- `hasSuccess` of `parseTestResults` (computed from stdout only). -/
def prHasSuccess (stdout : String) : Bool :=
  jsIncludes stdout "✓" || jsIncludes stdout "PASS" ||
  jsIncludes stdout "SUCCESS" || jsIncludes stdout "completed"

/-- `hasError` of `parseTestResults` (any stderr, or stdout markers). -/
def prHasError (stdout stderr : String) : Bool :=
  decide (0 < stderr.length) || jsIncludes stdout "✗" ||
  jsIncludes stdout "FAIL" || jsIncludes stdout "ERROR"

/-- The single status that `parseTestResults` assigns to every case. -/
def overallStatus (stdout stderr : String) : TestStatus :=
  if 50 < stdout.length ∨ 0 < stderr.length then
    if prHasError stdout stderr then .FAILED
    else if prHasSuccess stdout then .PASSED
    else .UNKNOWN
  else .READY_TO_RUN

/-- `TestExecutor.parseTestResults(testCode, stdout, stderr)`: re-parse the
cases from the code, then overwrite every status from global properties of
the captured output (`String.length` counts code points here, UTF-16 units
in JavaScript; the fixed marker strings are unaffected). -/
def parseTestResultsFn (testCode stdout stderr : String) : List TestCase :=
  let testCases := parseTestCasesFromCode testCode
  if 50 < stdout.length ∨ 0 < stderr.length then
    testCases.map fun c =>
      { c with status :=
          if prHasError stdout stderr then .FAILED
          else if prHasSuccess stdout then .PASSED
          else .UNKNOWN }
  else
    testCases.map fun c => { c with status := .READY_TO_RUN }

/-! ## SubprocessRunner / Orchestrator executor
(`TestExecutor.executeTestsAndGenerateReport`, src/unnamed/part_004 lines
15-114).

The effectful collaborators (module resolution, `npm install`, `fs.writeFile`,
`execAsync`) are abstracted into an `ExecutorEnv` describing what each of
them does on this run; the function below is the source's control flow over
those outcomes.  The second component of the result records whether the
`temp-test.js` file exists after the call returns (assuming it did not exist
before): it is created by `fs.writeFile` and deleted only by the single
`fs.unlink` on the successful-execution path. -/

/-- Markdown code-fence strip, first pass:
`.replace(/```(?:javascript|js)?\n?/g, "")`. -/
def stripTicks1 : List Char → List Char
  | [] => []
  | c :: cs =>
    if listStarts [Char.ofNat 96, Char.ofNat 96, Char.ofNat 96] (c :: cs) then
      let r := (c :: cs).drop 3
      let k := if listStarts "javascript".data r then 10
               else if listStarts "js".data r then 2 else 0
      let r2 := r.drop k
      let k2 := if r2.head? = some '\n' then 1 else 0
      stripTicks1 (r2.drop k2)
    else c :: stripTicks1 cs
termination_by l => l.length
decreasing_by
  all_goals simp [List.length_drop]
  all_goals omega

/-- Markdown code-fence strip, second pass: `.replace(/```\n?/g, "")`. -/
def stripTicks2 : List Char → List Char
  | [] => []
  | c :: cs =>
    if listStarts [Char.ofNat 96, Char.ofNat 96, Char.ofNat 96] (c :: cs) then
      let r := (c :: cs).drop 3
      let k2 := if r.head? = some '\n' then 1 else 0
      stripTicks2 (r.drop k2)
    else c :: stripTicks2 cs
termination_by l => l.length
decreasing_by
  all_goals simp [List.length_drop]
  all_goals omega

/-- The import prologue prepended to the cleaned generated code. -/
def importsText : String :=
  "const \x7b startBrowserAgent \x7d = require(\x27magnitude-core\x27);\nconst \x7b z \x7d = require(\x27zod\x27);\nrequire(\x27dotenv\x27).config();\n\n" ++
  "// Ensure ANTHROPIC_API_KEY is available\n" ++
  "if (!process.env.ANTHROPIC_API_KEY && process.env.CLAUDE_API_KEY) \x7b\n" ++
  "  process.env.ANTHROPIC_API_KEY = process.env.CLAUDE_API_KEY;\n" ++
  "\x7d\n\n"

/-- `cleanTestCode`: strip code fences, trim, prepend the prologue. -/
def cleanCodeFor (testCode : String) : String :=
  String.mk (importsText.data ++ jsTrim (stripTicks2 (stripTicks1 testCode.data)))

/-- Outcomes of the effectful collaborators during one executor run. -/
structure ExecutorEnv where
  hasMagnitudeCore : Bool
  installOk : Bool
  installErrMsg : String
  writeOk : Bool
  writeErrMsg : String
  execOk : Bool
  execStdout : String
  execStderr : String
  execErrMsg : String
deriving DecidableEq

/-- The report object returned by `executeTestsAndGenerateReport`. -/
structure ExecReport where
  success : Bool
  testCases : List TestCase
  output : String
  errors : String
  executionSkipped : Bool
deriving DecidableEq

/-- `TestExecutor.executeTestsAndGenerateReport(testCode)` over an
`ExecutorEnv`; the `Bool` is whether `temp-test.js` exists afterwards.
Branches, in source order: dependency-install failure (only attempted when
`magnitude-core` is not resolvable) returns the skipped report with the
pre-parsed cases forced to READY_TO_RUN; a `fs.writeFile` rejection lands in
the outer catch with no file on disk; an `execAsync` rejection (timeout,
spawn failure or non-zero exit) lands in the outer catch after the file was
written and before the only `fs.unlink`; on success the file is unlinked and
the re-parsed, status-updated cases are returned. -/
def executeTestsAndGenerateReport (env : ExecutorEnv) (testCode : String) :
    ExecReport × Bool :=
  let testCases := parseTestCasesFromCode testCode
  if !env.hasMagnitudeCore && !env.installOk then
    ({ success := true
       testCases := testCases.map fun c => { c with status := .READY_TO_RUN }
       output := "Test code generated successfully but not executed (dependency installation failed)"
       errors := "Failed to install dependencies: " ++ env.installErrMsg
       executionSkipped := true }, false)
  else if !env.writeOk then
    ({ success := true
       testCases := testCases.map fun c => { c with status := .READY_TO_RUN }
       output := ""
       errors := "Execution failed (dependencies may be missing): " ++ env.writeErrMsg
       executionSkipped := true }, false)
  else if !env.execOk then
    ({ success := true
       testCases := testCases.map fun c => { c with status := .READY_TO_RUN }
       output := ""
       errors := "Execution failed (dependencies may be missing): " ++ env.execErrMsg
       executionSkipped := true }, true)
  else
    ({ success := true
       testCases := parseTestResultsFn (cleanCodeFor testCode) env.execStdout env.execStderr
       output := env.execStdout
       errors := env.execStderr
       executionSkipped := false }, false)

/-! ## Real-time runner timeout discipline
(`TestExecutor.executeWithRealTimeLogging`, src/src/test-executor.js lines
120-182).

The promise executor installs a one-shot timer and `close`/`error` handlers
on the child.  The event-loop delivers these callbacks in some order; the
model replays a list of delivered events against the handler bodies: both
process handlers call `clearTimeout` and settle the promise, the timer
callback (which only runs while the timer is armed, and setTimeout arms it
once) sends one SIGTERM and rejects.  A promise settles only once. -/

/-- Events the event loop can deliver to the runner's callbacks. -/
inductive ChildEvent
  | closeEv (code : Int)
  | errorEv
  | timerEv
deriving DecidableEq

/-- How the runner's promise settles. -/
inductive SettleResult
  | resolved
  | rejectedExit (code : Int)
  | rejectedSpawn
  | rejectedTimeout
deriving DecidableEq

/-- Runner callback state: armed timer, settled promise, SIGTERMs sent. -/
structure RunnerState where
  timerActive : Bool
  settled : Option SettleResult
  sigterms : Nat
deriving DecidableEq

/-- First settlement wins (promise semantics). -/
def settleOnce (s : Option SettleResult) (r : SettleResult) :
    Option SettleResult :=
  match s with
  | some x => some x
  | none => some r

/-- One delivered event against the three callback bodies. -/
def runnerStep (s : RunnerState) (e : ChildEvent) : RunnerState :=
  match e with
  | .closeEv code =>
    { timerActive := false
      settled := settleOnce s.settled
        (if code = 0 then .resolved else .rejectedExit code)
      sigterms := s.sigterms }
  | .errorEv =>
    { timerActive := false
      settled := settleOnce s.settled .rejectedSpawn
      sigterms := s.sigterms }
  | .timerEv =>
    if s.timerActive then
      { timerActive := false
        settled := settleOnce s.settled .rejectedTimeout
        sigterms := s.sigterms + 1 }
    else s

/-- State when the promise executor returns: timer armed, nothing settled. -/
def runnerInit : RunnerState := ⟨true, none, 0⟩

/-- Replay of a delivered-event sequence. -/
def runEvents (evs : List ChildEvent) : RunnerState :=
  evs.foldl runnerStep runnerInit

/-! ## Preview-URL resolution before test generation
(`PRTestGenerator.run`, src/src/pr-test-generator.js lines 444-463, with the
polling loop `waitForPreviewUrls` of lines 777-799 abstracted into the list
of URLs it would return).  JavaScript truthiness of `this.baseUrl` is
modelled as the string being non-empty. -/

/-- What `run` decides about preview URLs just before `generateTests`. -/
structure UrlResolution where
  pollingEntered : Bool
  previewUrls : List String
deriving DecidableEq

/-- The guarded poll (`if (!this.baseUrl && prContext.previewUrls.length ===
0 && this.waitForPreview > 0)`) followed by the base-URL override
(`if (this.baseUrl) prContext.previewUrls = [this.baseUrl]`). -/
def resolvePreviewUrls (baseUrl : String) (contextUrls : List String)
    (waitForPreview : Nat) (polledUrls : List String) : UrlResolution :=
  let shouldWait := (baseUrl == "") && contextUrls.isEmpty &&
    decide (0 < waitForPreview)
  let urlsAfterWait :=
    if shouldWait then
      (if polledUrls.isEmpty then contextUrls else polledUrls)
    else contextUrls
  let finalUrls := if baseUrl == "" then urlsAfterWait else [baseUrl]
  { pollingEntered := shouldWait, previewUrls := finalUrls }

/-- A line yields a stage-1 case: the line regex matches and the trimmed
captured description is longer than 5 UTF-16 units. -/
def lineQualifies (l : List Char) : Bool :=
  match lineMatch l with
  | some d => decide (5 < jsLen (jsTrim d))
  | none => false

/-- The case built from a qualifying enumerated line. -/
def lineCaseOf (p : Nat × List Char) : TestCase :=
  { name := String.mk (jsTrim ((lineMatch p.2).getD []))
    status := .GENERATED
    lineNumber := p.1 + 1 }

/-! # Theorems -/

/-- `filterMap` of a function that answers `some (g a)` exactly on the
elements selected by `q` is the `map` of `g` over the `q`-filter. -/
theorem filterMap_eq_map_of_filter {α β : Type} (f : α → Option β)
    (q : α → Bool) (g : α → β)
    (hf : ∀ a, q a = true → f a = some (g a))
    (hn : ∀ a, q a = false → f a = none) :
    ∀ l : List α, l.filterMap f = (l.filter q).map g := by
  intro l
  induction l with
  | nil => rfl
  | cons a l ih =>
    cases hq : q a with
    | true => rw [List.filterMap_cons, hf a hq, List.filter_cons_of_pos hq,
        List.map_cons, ih]
    | false => rw [List.filterMap_cons, hn a hq, List.filter_cons_of_neg
        (by simp [hq]), ih]

/-- The extraction cascade always produces at least one case. -/
theorem parse_cases_ne_nil (testCode : String) :
    parseTestCasesFromCode testCode ≠ [] := by
  unfold parseTestCasesFromCode
  simp only []
  split_ifs with h1 h2 h3
  · simp
  · simpa using h3
  · simpa using h2
  · simpa using h1

/-- Forcing a status leaves a list of cases all carrying that status. -/
theorem map_status_all (l : List TestCase) (st : TestStatus) :
    ∀ c ∈ l.map (fun c => { c with status := st }), c.status = st := by
  intro c hc
  obtain ⟨a, _, rfl⟩ := List.mem_map.mp hc
  rfl

/-- C2: `determineTestSuccess` is phrase-priority-ordered: any failure
phrase in the lower-cased combined output forces `false` regardless of exit
code and of success phrases; otherwise any success phrase forces `true`
regardless of exit code; otherwise the verdict is exactly `exitCode = 0`. -/
theorem determineTestSuccess_priority (stdout stderr : String) (exitCode : Int) :
    (hasIndicator failureIndicators (jsToLowerStr (stdout ++ stderr)) = true →
      determineTestSuccess stdout stderr exitCode = false) ∧
    (hasIndicator failureIndicators (jsToLowerStr (stdout ++ stderr)) = false →
      hasIndicator successIndicators (jsToLowerStr (stdout ++ stderr)) = true →
      determineTestSuccess stdout stderr exitCode = true) ∧
    (hasIndicator failureIndicators (jsToLowerStr (stdout ++ stderr)) = false →
      hasIndicator successIndicators (jsToLowerStr (stdout ++ stderr)) = false →
      (determineTestSuccess stdout stderr exitCode = true ↔ exitCode = 0)) := by
  unfold determineTestSuccess
  refine ⟨fun h => ?_, fun h1 h2 => ?_, fun h1 h2 => ?_⟩
  · simp [h]
  · simp [h1, h2]
  · simp [h1, h2]

/-- Witness for C2 at the spec's end-to-end scenarios A, B and C. -/
theorem determineTestSuccess_priority_witness :
    determineTestSuccess "ERROR: Test foo" "" 0 = false ∧
    determineTestSuccess "All tests completed successfully" "" 1 = true ∧
    (determineTestSuccess "plain output" "" 0 = true ↔ (0 : Int) = 0) :=
  ⟨(determineTestSuccess_priority "ERROR: Test foo" "" 0).1 (by decide),
   (determineTestSuccess_priority "All tests completed successfully" "" 1).2.1
     (by decide) (by decide),
   (determineTestSuccess_priority "plain output" "" 0).2.2
     (by decide) (by decide)⟩

/-- C9: with a truthy base-URL override configured, the preview-URL polling
condition is false (the loop is never entered) and the context's preview-URL
list becomes exactly the singleton override before test generation,
regardless of discovered or polled URLs. -/
theorem baseUrl_override_wins (baseUrl : String) (contextUrls : List String)
    (waitForPreview : Nat) (polledUrls : List String) (h : baseUrl ≠ "") :
    (resolvePreviewUrls baseUrl contextUrls waitForPreview
      polledUrls).pollingEntered = false ∧
    (resolvePreviewUrls baseUrl contextUrls waitForPreview
      polledUrls).previewUrls = [baseUrl] := by
  have hb : (baseUrl == "") = false := by
    simpa using h
  unfold resolvePreviewUrls
  simp [hb]

/-- Witness for C9 with an override competing against discovered and polled
URLs. -/
theorem baseUrl_override_wins_witness :
    (resolvePreviewUrls "https://x.example" ["https://found.example"] 60
      ["https://polled.example"]).pollingEntered = false ∧
    (resolvePreviewUrls "https://x.example" ["https://found.example"] 60
      ["https://polled.example"]).previewUrls = ["https://x.example"] :=
  baseUrl_override_wins "https://x.example" ["https://found.example"] 60
    ["https://polled.example"] (by decide)

/-- From a disarmed-and-settled runner state no later event changes
anything. -/
theorem runner_steady (rest : List ChildEvent) :
    ∀ (x : SettleResult) (k : Nat),
      List.foldl runnerStep ⟨false, some x, k⟩ rest = ⟨false, some x, k⟩ := by
  induction rest with
  | nil => intro x k; rfl
  | cons e rest ih =>
    intro x k
    cases e with
    | closeEv code => simpa [runnerStep, settleOnce] using ih x k
    | errorEv => simpa [runnerStep, settleOnce] using ih x k
    | timerEv => simpa [runnerStep] using ih x k

/-- C8: if the first delivered event is the child's close or error, the
timer is cleared and the timeout callback never runs (no SIGTERM is ever
sent); if the timer fires first, exactly one SIGTERM is sent — with no
second signal and no escalation — and the promise is rejected as timed out
for good. -/
theorem runner_timeout_single_shot (e : ChildEvent) (rest : List ChildEvent) :
    (e ≠ ChildEvent.timerEv → (runEvents (e :: rest)).sigterms = 0) ∧
    (e = ChildEvent.timerEv → (runEvents (e :: rest)).sigterms = 1 ∧
      (runEvents (e :: rest)).settled = some SettleResult.rejectedTimeout) := by
  constructor
  · intro he
    cases e with
    | closeEv code =>
      show (List.foldl runnerStep (runnerStep runnerInit _) rest).sigterms = 0
      rw [show runnerStep runnerInit (ChildEvent.closeEv code) =
        ⟨false, some (if code = 0 then SettleResult.resolved
          else SettleResult.rejectedExit code), 0⟩ from rfl]
      rw [runner_steady]
    | errorEv =>
      show (List.foldl runnerStep (runnerStep runnerInit _) rest).sigterms = 0
      rw [show runnerStep runnerInit ChildEvent.errorEv =
        ⟨false, some SettleResult.rejectedSpawn, 0⟩ from rfl]
      rw [runner_steady]
    | timerEv => exact absurd rfl he
  · intro he
    subst he
    have h1 : runEvents (ChildEvent.timerEv :: rest) =
        List.foldl runnerStep ⟨false, some SettleResult.rejectedTimeout, 1⟩
          rest := rfl
    rw [h1, runner_steady]
    exact ⟨rfl, rfl⟩

/-- Witness for C8: a close before the timer sends no signal; the timer
firing first sends exactly one and times the run out, even if the close
arrives later. -/
theorem runner_timeout_single_shot_witness :
    (runEvents [ChildEvent.closeEv 0, ChildEvent.timerEv]).sigterms = 0 ∧
    (runEvents [ChildEvent.timerEv, ChildEvent.closeEv 0]).sigterms = 1 ∧
    (runEvents [ChildEvent.timerEv, ChildEvent.closeEv 0]).settled =
      some SettleResult.rejectedTimeout :=
  ⟨(runner_timeout_single_shot (ChildEvent.closeEv 0) [ChildEvent.timerEv]).1
      (by decide),
   ((runner_timeout_single_shot ChildEvent.timerEv [ChildEvent.closeEv 0]).2
      rfl).1,
   ((runner_timeout_single_shot ChildEvent.timerEv [ChildEvent.closeEv 0]).2
      rfl).2⟩

/-- C10: every case in the list returned by `parseTestResults` carries the
same status, computed only from global properties of the captured output
(`overallStatus`), never from per-case evidence. -/
theorem parseTestResults_uniform_status (testCode stdout stderr : String)
    (c : TestCase) (hc : c ∈ parseTestResultsFn testCode stdout stderr) :
    c.status = overallStatus stdout stderr := by
  unfold parseTestResultsFn at hc
  unfold overallStatus
  by_cases h : 50 < stdout.length ∨ 0 < stderr.length
  · simp only [if_pos h] at hc ⊢
    obtain ⟨a, _, rfl⟩ := List.mem_map.mp hc
    rfl
  · simp only [if_neg h] at hc ⊢
    obtain ⟨a, _, rfl⟩ := List.mem_map.mp hc
    rfl

/-- Witness for C10 on the fallback case of an empty script with empty
output. -/
theorem parseTestResults_uniform_status_witness :
    (⟨"Generated test execution", TestStatus.READY_TO_RUN, 1⟩ :
      TestCase).status = overallStatus "" "" :=
  parseTestResults_uniform_status "" "" ""
    ⟨"Generated test execution", TestStatus.READY_TO_RUN, 1⟩ (by decide)

/-- C1: whenever dependency installation fails or execution of the generated
script fails (timeout, spawn failure, non-zero exit, or even the temp-file
write failing), `executeTestsAndGenerateReport` returns a report with
`success = true` and `executionSkipped = true`, carrying a non-empty
`testCases` list in which every case's status is READY_TO_RUN; the failure
is never surfaced as a hard failure. -/
theorem executor_failure_degrades (env : ExecutorEnv) (testCode : String)
    (h : (env.hasMagnitudeCore = false ∧ env.installOk = false) ∨
      env.writeOk = false ∨ env.execOk = false) :
    (executeTestsAndGenerateReport env testCode).1.success = true ∧
    (executeTestsAndGenerateReport env testCode).1.executionSkipped = true ∧
    (executeTestsAndGenerateReport env testCode).1.testCases ≠ [] ∧
    ∀ c ∈ (executeTestsAndGenerateReport env testCode).1.testCases,
      c.status = TestStatus.READY_TO_RUN := by
  have hne := parse_cases_ne_nil testCode
  unfold executeTestsAndGenerateReport
  simp only []
  split_ifs with h1 h2 h3
  · exact ⟨rfl, rfl, by simpa using hne, map_status_all _ _⟩
  · exact ⟨rfl, rfl, by simpa using hne, map_status_all _ _⟩
  · exact ⟨rfl, rfl, by simpa using hne, map_status_all _ _⟩
  · exfalso
    rcases h with ⟨ha, hb⟩ | hw | he
    · rw [ha, hb] at h1
      simp at h1
    · rw [hw] at h2
      simp at h2
    · rw [he] at h3
      simp at h3

/-- Witness for C1: a run whose `execAsync` rejects. -/
theorem executor_failure_degrades_witness :
    (executeTestsAndGenerateReport
      { hasMagnitudeCore := true, installOk := true, installErrMsg := "",
        writeOk := true, writeErrMsg := "", execOk := false,
        execStdout := "", execStderr := "",
        execErrMsg := "Command failed" }
      "// Test 1: login works").1.success = true ∧
    (executeTestsAndGenerateReport
      { hasMagnitudeCore := true, installOk := true, installErrMsg := "",
        writeOk := true, writeErrMsg := "", execOk := false,
        execStdout := "", execStderr := "",
        execErrMsg := "Command failed" }
      "// Test 1: login works").1.executionSkipped = true ∧
    (executeTestsAndGenerateReport
      { hasMagnitudeCore := true, installOk := true, installErrMsg := "",
        writeOk := true, writeErrMsg := "", execOk := false,
        execStdout := "", execStderr := "",
        execErrMsg := "Command failed" }
      "// Test 1: login works").1.testCases ≠ [] ∧
    ∀ c ∈ (executeTestsAndGenerateReport
      { hasMagnitudeCore := true, installOk := true, installErrMsg := "",
        writeOk := true, writeErrMsg := "", execOk := false,
        execStdout := "", execStderr := "",
        execErrMsg := "Command failed" }
      "// Test 1: login works").1.testCases,
      c.status = TestStatus.READY_TO_RUN :=
  executor_failure_degrades _ "// Test 1: login works"
    (Or.inr (Or.inr rfl))

/-- C3 counterexample: when `execAsync` rejects (timeout, spawn failure or
non-zero exit), `executeTestsAndGenerateReport` returns with the temporary
script file still on disk — the single `fs.unlink` sits on the success path
only, so the file is NOT removed on every exit path. -/
theorem temp_file_left_after_exec_failure :
    (executeTestsAndGenerateReport
      { hasMagnitudeCore := true, installOk := true, installErrMsg := "",
        writeOk := true, writeErrMsg := "", execOk := false,
        execStdout := "", execStderr := "",
        execErrMsg := "Command timed out after 120000ms" } "x").2 = true :=
  rfl

/-- C3 as amended: the temporary script file survives the call exactly when
the run reached execution (install passed or was skipped, the write
succeeded) and execution then failed; on the successful path it is unlinked,
and on install-failure or write-failure paths it was never created. -/
theorem temp_file_final_state (env : ExecutorEnv) (testCode : String) :
    (executeTestsAndGenerateReport env testCode).2 =
      ((env.hasMagnitudeCore || env.installOk) && env.writeOk &&
        !env.execOk) := by
  unfold executeTestsAndGenerateReport
  cases env with
  | mk hm io im wo wm eo so se em =>
    cases hm <;> cases io <;> cases wo <;> cases eo <;> rfl

/-- C5: for every script with at least one line whose `// Test N: …` /
`// N. …` regex match has a trimmed description longer than 5 characters,
`parseTestCasesFromCode` returns exactly one TestCase per such line, in
source-line order, named by the trimmed description, with status GENERATED
and `lineNumber` the 1-based source line. -/
theorem extractCases_line_comments (testCode : String)
    (h : ((splitNl testCode.data).enum.filter fun p => lineQualifies p.2)
      ≠ []) :
    parseTestCasesFromCode testCode =
      ((splitNl testCode.data).enum.filter fun p =>
        lineQualifies p.2).map lineCaseOf := by
  have key : lineCases testCode.data =
      ((splitNl testCode.data).enum.filter fun p =>
        lineQualifies p.2).map lineCaseOf := by
    apply filterMap_eq_map_of_filter
    · intro p hp
      unfold lineQualifies at hp
      unfold lineCaseOf
      cases hm : lineMatch p.2 with
      | some d =>
        rw [hm] at hp
        simp only [decide_eq_true_eq] at hp
        simp [hm, hp]
      | none => rw [hm] at hp; exact absurd hp (by simp)
    · intro p hp
      unfold lineQualifies at hp
      cases hm : lineMatch p.2 with
      | some d =>
        rw [hm] at hp
        simp only [decide_eq_false_iff_not] at hp
        simp [hm, hp]
      | none => simp [hm]
  have hcases : lineCases testCode.data ≠ [] := by
    rw [key]
    simpa using h
  unfold parseTestCasesFromCode
  simp only []
  rw [if_neg (by simpa using hcases)]
  exact key

/-- Witness for C5 on a two-comment script. -/
theorem extractCases_line_comments_witness :
    parseTestCasesFromCode "// Test 1: login works\nx();\n// 2. check logout" =
      [⟨"login works", TestStatus.GENERATED, 1⟩,
       ⟨"check logout", TestStatus.GENERATED, 3⟩] := by
  rw [extractCases_line_comments
    "// Test 1: login works\nx();\n// 2. check logout" (by decide)]
  decide

/-- C6: a script with no qualifying line comments, no qualifying block
comments and no automation-action markers yields exactly the single
fallback case named "Generated test execution"; and the cascade never
returns an empty list for any script. -/
theorem extractCases_fallback (testCode : String)
    (h1 : lineCases testCode.data = [])
    (h2 : blockCases testCode.data = [])
    (h3 : markerCases testCode.data = []) :
    parseTestCasesFromCode testCode =
      [⟨"Generated test execution", TestStatus.GENERATED, 1⟩] ∧
    ∀ tc : String, parseTestCasesFromCode tc ≠ [] := by
  constructor
  · unfold parseTestCasesFromCode
    simp [h1, h2, h3, fallbackCase]
  · exact parse_cases_ne_nil

/-- Witness for C6 on a script with no comments and no markers. -/
theorem extractCases_fallback_witness :
    lineCases "const x = 1;".data = [] ∧
    blockCases "const x = 1;".data = [] ∧
    markerCases "const x = 1;".data = [] ∧
    parseTestCasesFromCode "const x = 1;" =
      [⟨"Generated test execution", TestStatus.GENERATED, 1⟩] :=
  ⟨by decide, by decide, by decide,
   (extractCases_fallback "const x = 1;" (by decide) (by decide)
     (by decide)).1⟩

/-- Characters are determined by their code points. -/
theorem chEq (c d : Char) (h : c.toNat = d.toNat) : c = d :=
  Char.eq_of_val_eq (UInt32.ext h)

/-- Code point of `Char.ofNat` at a valid code point. -/
theorem charOfNat_toNat (n : Nat) (h : n.isValidChar) :
    (Char.ofNat n).toNat = n := by
  unfold Char.ofNat
  rw [dif_pos h]
  simp [Char.ofNatAux, Char.toNat, UInt32.toNat, BitVec.toNat_ofNatLt]

/-- If ASCII lower-casing sends `c` to a lower-case letter then `c` is a
letter: alphanumeric and not whitespace. -/
theorem jsLower_letter (c l : Char) (h1 : 97 ≤ l.toNat) (h2 : l.toNat ≤ 122)
    (h : jsLower c = l) : isAlnum c = true ∧ isJsWs c = false := by
  unfold jsLower at h
  split_ifs at h with hc
  · have hv : (c.toNat + 32).isValidChar := Or.inl (by omega)
    have := charOfNat_toNat (c.toNat + 32) hv
    rw [h] at this
    constructor
    · unfold isAlnum
      simp only [Bool.or_eq_true, Bool.and_eq_true, decide_eq_true_eq]
      omega
    · rw [Bool.eq_false_iff]
      intro hcon
      unfold isJsWs at hcon
      simp only [Bool.or_eq_true, Bool.and_eq_true, decide_eq_true_eq] at hcon
      omega
  · constructor
    · unfold isAlnum
      simp only [Bool.or_eq_true, Bool.and_eq_true, decide_eq_true_eq]
      rw [h]
      omega
    · rw [Bool.eq_false_iff]
      intro hcon
      unfold isJsWs at hcon
      simp only [Bool.or_eq_true, Bool.and_eq_true, decide_eq_true_eq] at hcon
      rw [h] at hcon
      omega

/-- If ASCII lower-casing sends `c` to a non-lower-case-letter code point
then `c` is that code point itself. -/
theorem jsLower_eq_of_not_lcase (c l : Char)
    (hl : l.toNat < 97 ∨ 122 < l.toNat) (h : jsLower c = l) : c = l := by
  unfold jsLower at h
  split_ifs at h with hc
  · exfalso
    have hv : (c.toNat + 32).isValidChar := Or.inl (by omega)
    have := charOfNat_toNat (c.toNat + 32) hv
    rw [h] at this
    omega
  · exact h

/-- Shape characterization of an `sk-` window. -/
theorem checkKey_iff (l : List Char) :
    checkKey l = true ↔
      ∃ r, l = 's' :: 'k' :: '-' :: r ∧ r.length = 48 ∧
        r.all isAlnum = true := by
  rcases l with _ | ⟨c1, _ | ⟨c2, _ | ⟨c3, r⟩⟩⟩
  · simp [checkKey]
  · simp [checkKey]
  · simp [checkKey]
  · unfold checkKey
    simp only [Bool.and_eq_true, decide_eq_true_eq, beq_iff_eq]
    constructor
    · rintro ⟨⟨⟨⟨h1, h2⟩, h3⟩, h4⟩, h5⟩
      exact ⟨r, by rw [h1, h2, h3], h4, h5⟩
    · rintro ⟨r', heq, h4, h5⟩
      obtain ⟨e1, e2, e3, e4⟩ : c1 = 's' ∧ c2 = 'k' ∧ c3 = '-' ∧ r = r' := by
        simpa using heq
      subst e1; subst e2; subst e3; subst e4
      exact ⟨⟨⟨⟨rfl, rfl⟩, rfl⟩, h4⟩, h5⟩

/-- An `sk-` window never contains `[`. -/
theorem checkKey_lbrack (l : List Char) (h : checkKey l = true) : '[' ∉ l := by
  obtain ⟨r, rfl, _, hall⟩ := (checkKey_iff l).mp h
  intro hm
  simp only [List.mem_cons] at hm
  rcases hm with h1 | h1 | h1 | h1
  · exact absurd h1 (by decide)
  · exact absurd h1 (by decide)
  · exact absurd h1 (by decide)
  · have := (List.all_eq_true.mp hall) '[' h1
    exact absurd this (by decide)

/-- An `sk-` window starts with `s`. -/
theorem checkKey_head (c : Char) (l : List Char)
    (h : checkKey (c :: l) = true) : c = 's' := by
  obtain ⟨r, heq, -, -⟩ := (checkKey_iff _).mp h
  exact (List.cons_eq_cons.mp heq).1

/-- Scanning `v ++ u` finds no `sk-` match starting inside `v` when `v` has
no `s`. -/
theorem noS_append (v u : List Char) (hv : ∀ x ∈ v, x ≠ 's') :
    hasSk (v ++ u) = hasSk u := by
  induction v with
  | nil => rfl
  | cons c v ih =>
    have hc : checkKey ((c :: (v ++ u)).take 51) = false := by
      rw [Bool.eq_false_iff]
      intro hck
      rw [List.take_succ_cons] at hck
      exact hv c (by simp) (checkKey_head _ _ hck)
    show (checkKey ((c :: (v ++ u)).take 51) || hasSk (v ++ u)) = hasSk u
    rw [hc, ih fun x hx => hv x (by simp [hx]), Bool.false_or]

/-- Decomposition of the `sk-` scan over an append. -/
theorem hasSk_append (a w : List Char) :
    hasSk (a ++ w) = (skCross a w || hasSk w) := by
  induction a with
  | nil => rfl
  | cons c a ih =>
    show (checkKey ((c :: (a ++ w)).take 51) || hasSk (a ++ w)) = _
    rw [ih]
    show _ = ((checkKey ((c :: (a ++ w)).take 51) || skCross a w) || hasSk w)
    rw [Bool.or_assoc]

/-- Equation: the empty scan. -/
theorem replaceSk_nil : replaceSk [] = [] := by
  rw [replaceSk]

/-- Equation: a match at the head is replaced and skipped. -/
theorem replaceSk_cons_pos (c : Char) (cs : List Char)
    (h : checkKey ((c :: cs).take 51) = true) :
    replaceSk (c :: cs) = redactedKey ++ replaceSk ((c :: cs).drop 51) := by
  rw [replaceSk, if_pos h]

/-- Equation: a non-match at the head is kept. -/
theorem replaceSk_cons_neg (c : Char) (cs : List Char)
    (h : ¬ checkKey ((c :: cs).take 51) = true) :
    replaceSk (c :: cs) = c :: replaceSk cs := by
  rw [replaceSk, if_neg h]

/-- The `sk-` replacement scan agrees with its input on any window, except
where the window already contains a `[` from a substituted redaction. -/
theorem replaceSk_take_agree :
    ∀ (N : Nat) (u : List Char), u.length ≤ N → ∀ n : Nat,
      (replaceSk u).take n = u.take n ∨ '[' ∈ (replaceSk u).take n := by
  intro N
  induction N with
  | zero =>
    intro u hu n
    have hnil : u = [] := List.length_eq_zero.mp (Nat.le_zero.mp hu)
    subst hnil
    left
    rw [replaceSk_nil]
  | succ N ih =>
    intro u hu n
    match u with
    | [] => left; rw [replaceSk_nil]
    | c :: cs =>
      by_cases hck : checkKey ((c :: cs).take 51) = true
      · cases n with
        | zero => left; rfl
        | succ m =>
          right
          rw [replaceSk_cons_pos c cs hck]
          simp [redactedKey]
      · cases n with
        | zero => left; rfl
        | succ m =>
          rw [replaceSk_cons_neg c cs hck]
          rw [List.take_succ_cons, List.take_succ_cons]
          have hcs : cs.length ≤ N := by
            simp only [List.length_cons] at hu
            omega
          rcases ih cs hcs m with h | h
          · left; rw [h]
          · right; simp [h]

/-- The output of the `sk-` substitution contains no `sk-` match. -/
theorem hasSk_replaceSk :
    ∀ (N : Nat) (u : List Char), u.length ≤ N →
      hasSk (replaceSk u) = false := by
  intro N
  induction N with
  | zero =>
    intro u hu
    have hnil : u = [] := List.length_eq_zero.mp (Nat.le_zero.mp hu)
    subst hnil
    rw [replaceSk_nil]
    rfl
  | succ N ih =>
    intro u hu
    match u with
    | [] => rw [replaceSk_nil]; rfl
    | c :: cs =>
      by_cases hck : checkKey ((c :: cs).take 51) = true
      · rw [replaceSk_cons_pos c cs hck]
        rw [noS_append _ _ (by decide)]
        exact ih _ (by
          rw [List.length_drop]
          simp only [List.length_cons] at hu ⊢
          omega)
      · rw [replaceSk_cons_neg c cs hck]
        have hcs : cs.length ≤ N := by
          simp only [List.length_cons] at hu
          omega
        have htail : hasSk (replaceSk cs) = false := ih cs hcs
        show (checkKey ((c :: replaceSk cs).take 51) ||
          hasSk (replaceSk cs)) = false
        rw [htail, Bool.or_false, Bool.eq_false_iff]
        intro hk
        rw [List.take_succ_cons] at hk
        rcases replaceSk_take_agree N cs hcs 50 with ha | ha
        · rw [ha, ← List.take_succ_cons] at hk
          exact hck hk
        · exact checkKey_lbrack _ hk (by simp [ha])

/-- A match-free input is a fixed point of the `sk-` substitution. -/
theorem replaceSk_fixed :
    ∀ (N : Nat) (u : List Char), u.length ≤ N → hasSk u = false →
      replaceSk u = u := by
  intro N
  induction N with
  | zero =>
    intro u hu _
    have hnil : u = [] := List.length_eq_zero.mp (Nat.le_zero.mp hu)
    subst hnil
    exact replaceSk_nil
  | succ N ih =>
    intro u hu h
    match u with
    | [] => exact replaceSk_nil
    | c :: cs =>
      have h2 : (checkKey ((c :: cs).take 51) || hasSk cs) = false := h
      simp only [Bool.or_eq_false_iff] at h2
      rw [replaceSk_cons_neg c cs (by rw [h2.1]; exact Bool.false_ne_true)]
      have hcs : cs.length ≤ N := by
        simp only [List.length_cons] at hu
        omega
      rw [ih cs hcs h2.2]

/-- Match-freeness for the `sk-` scan is inherited by suffixes. -/
theorem hasSk_drop (u : List Char) (h : hasSk u = false) :
    ∀ n : Nat, hasSk (u.drop n) = false := by
  induction u with
  | nil => intro n; simp [List.drop_nil]; rfl
  | cons c cs ih =>
    intro n
    cases n with
    | zero => exact h
    | succ m =>
      have h2 : (checkKey ((c :: cs).take 51) || hasSk cs) = false := h
      simp only [Bool.or_eq_false_iff] at h2
      exact ih h2.2 m

/-- Equation: the empty AK scan. -/
theorem replaceAK_nil : replaceAK [] = [] := by
  rw [replaceAK]

/-- Equation: an AK match at the head is replaced and skipped. -/
theorem replaceAK_cons_pos (c : Char) (cs : List Char) (m : Nat)
    (h : akTail (c :: cs) = some m) :
    replaceAK (c :: cs) = akRedacted ++ replaceAK ((c :: cs).drop (18 + m)) := by
  rw [replaceAK, h]

/-- Equation: an AK non-match at the head is kept. -/
theorem replaceAK_cons_neg (c : Char) (cs : List Char)
    (h : akTail (c :: cs) = none) :
    replaceAK (c :: cs) = c :: replaceAK cs := by
  rw [replaceAK, h]

/-- Dropping the length of the matched whitespace run lands on the
`dropWhile` remainder. -/
theorem drop_len_takeWhile (p : Char → Bool) (l : List Char) :
    l.drop (l.takeWhile p).length = l.dropWhile p := by
  induction l with
  | nil => rfl
  | cons c cs ih =>
    by_cases h : p c
    · simp [List.takeWhile_cons, List.dropWhile_cons, h, ih]
    · simp [List.takeWhile_cons, List.dropWhile_cons, h]

/-- The head of a `dropWhile` remainder fails the predicate. -/
theorem dropWhile_head_not (p : Char → Bool) (l : List Char) (c : Char)
    (rest : List Char) (h : l.dropWhile p = c :: rest) : p c = false := by
  induction l with
  | nil => simp at h
  | cons x xs ih =>
    rw [List.dropWhile_cons] at h
    by_cases hx : p x
    · rw [if_pos hx] at h
      exact ih h
    · rw [if_neg hx] at h
      obtain ⟨h1, -⟩ := List.cons_eq_cons.mp h
      rw [← h1]
      simpa using hx

/-- A case-insensitive head match only looks at the pattern-length
head of the text. -/
theorem ciStarts_of_take (p : List Char) :
    ∀ (v : List Char) (n : Nat), p.length ≤ n →
      ciStarts p (v.take n) = ciStarts p v := by
  induction p with
  | nil => intro v n _; rfl
  | cons q ps ih =>
    intro v n hn
    cases v with
    | nil => simp
    | cons c cs =>
      cases n with
      | zero => simp at hn
      | succ m =>
        rw [List.take_succ_cons]
        show (_ && ciStarts ps (cs.take m)) = (_ && ciStarts ps cs)
        rw [ih cs m (by simpa using hn)]

/-- A case-insensitive head match within the left part of an append. -/
theorem ciStarts_append_right (p : List Char) :
    ∀ (z u : List Char), p.length ≤ z.length →
      ciStarts p (z ++ u) = ciStarts p z := by
  induction p with
  | nil => intro z u _; rfl
  | cons q ps ih =>
    intro z u hz
    cases z with
    | nil => simp at hz
    | cons c cs =>
      show (_ && ciStarts ps (cs ++ u)) = (_ && ciStarts ps cs)
      rw [ih cs u (by simpa using hz)]

/-- Splitting a case-insensitive pattern along a split of the text. -/
theorem ciStarts_split_text :
    ∀ (x p z : List Char), ciStarts p (x ++ z) = true →
      ciStarts (p.drop x.length) z = true := by
  intro x
  induction x with
  | nil => intro p z h; simpa using h
  | cons c xs ih =>
    intro p z h
    cases p with
    | nil => simp [ciStarts]
    | cons q ps =>
      rw [List.cons_append] at h
      have h2 : ciStarts ps (xs ++ z) = true := by
        have hh := h
        unfold ciStarts at hh
        rw [Bool.and_eq_true] at hh
        exact hh.2
      simpa using ih ps z h2

/-- Splitting a case-insensitive pattern along a split of the pattern. -/
theorem ciStarts_split_pat :
    ∀ (p q b : List Char), ciStarts (p ++ q) b = true →
      ciStarts p b = true ∧ ciStarts q (b.drop p.length) = true := by
  intro p
  induction p with
  | nil => intro q b h; exact ⟨rfl, by simpa using h⟩
  | cons c ps ih =>
    intro q b h
    cases b with
    | nil => simp [ciStarts] at h
    | cons d bs =>
      rw [List.cons_append] at h
      unfold ciStarts at h
      rw [Bool.and_eq_true] at h
      obtain ⟨h1, h2⟩ := h
      obtain ⟨h3, h4⟩ := ih q bs h2
      constructor
      · unfold ciStarts
        rw [Bool.and_eq_true]
        exact ⟨h1, h3⟩
      · simpa using h4

/-- The head of what survives `take (n+1)` then `drop n`. -/
theorem head_drop_take (v : List Char) (n : Nat) :
    ((v.take (n + 1)).drop n).head? = (v.drop n).head? := by
  rw [List.drop_take]
  have h1 : n + 1 - n = 1 := by omega
  rw [h1]
  cases v.drop n <;> simp

/-- `akHeadOK` only looks at the first 18 characters. -/
theorem akHeadOK_take18 (v w : List Char) (h : v.take 18 = w.take 18) :
    akHeadOK v = akHeadOK w := by
  unfold akHeadOK
  have h17 : ciStarts anthropicKeyChars v = ciStarts anthropicKeyChars w := by
    rw [← ciStarts_of_take anthropicKeyChars v 18 (by decide),
      ← ciStarts_of_take anthropicKeyChars w 18 (by decide), h]
  have hh : (v.drop 17).head? = (w.drop 17).head? := by
    rw [← head_drop_take v 17, ← head_drop_take w 17, h]
  rw [h17, hh]

/-- Existence characterization of an AK match at the head: the 18-character
head shape must hold and something after the `\s*` run must be non-space,
i.e. the tail past the head must not be all whitespace. -/
theorem akTail_isSome_iff (v : List Char) :
    (akTail v).isSome = true ↔
      (akHeadOK v = true ∧ (v.drop 18).any (fun c => !isJsWs c) = true) := by
  unfold akTail
  by_cases hh : akHeadOK v = true
  · rw [if_pos hh]
    simp only [hh, true_and]
    have key : (((( v.drop 18).drop ((v.drop 18).takeWhile isJsWs).length).takeWhile
        (fun x => !isJsWs x)).length = 0) ↔
        ((v.drop 18).any (fun c => !isJsWs c) = false) := by
      rw [drop_len_takeWhile]
      cases hdw : (v.drop 18).dropWhile isJsWs with
      | nil =>
        simp only [List.takeWhile_nil, List.length_nil, true_iff]
        have hall := List.dropWhile_eq_nil_iff.mp hdw
        rw [← Bool.not_eq_true]
        intro hany
        obtain ⟨x, hx, hxp⟩ := List.any_eq_true.mp hany
        rw [hall x hx] at hxp
        simp at hxp
      | cons d rest =>
        have hdns : isJsWs d = false := dropWhile_head_not _ _ _ _ hdw
        constructor
        · intro hlen
          exfalso
          rw [List.takeWhile_cons, if_pos (by simp [hdns])] at hlen
          simp at hlen
        · intro hnone
          exfalso
          have hdm : d ∈ v.drop 18 := by
            have hmem : d ∈ (v.drop 18).dropWhile isJsWs := by
              rw [hdw]
              simp
            exact List.dropWhile_subset isJsWs hmem
          have hco : ((v.drop 18).any fun c => !isJsWs c) = true :=
            List.any_eq_true.mpr ⟨d, hdm, by
              show (!isJsWs d) = true
              rw [hdns]
              rfl⟩
          rw [hnone] at hco
          exact Bool.false_ne_true hco
    constructor
    · intro hs
      split_ifs at hs with hz
      · simp at hs
      · rw [← Bool.not_eq_false]
        intro hfalse
        exact hz (key.mpr hfalse)
    · intro hany
      rw [if_neg (fun hz => by
        rw [key.mp hz] at hany
        exact Bool.false_ne_true hany)]
      rfl
  · rw [if_neg hh]
    simp only [Option.isSome_none, Bool.false_eq_true, false_iff, not_and]
    intro hcon
    exact absurd hcon hh

/-- Unfolding equation of `ciStarts` on two conses. -/
theorem ciStarts_cons (p c : Char) (ps cs : List Char) :
    ciStarts (p :: ps) (c :: cs) =
      ((jsLower p = jsLower c : Bool) && ciStarts ps cs) := rfl

/-- Text matching the `ANTHROPIC_API_KEY` head case-insensitively starts
with a letter `a`/`A`: non-whitespace. -/
theorem akStart_head (b : List Char) (h : ciStarts anthropicKeyChars b = true) :
    ∃ c bs, b = c :: bs ∧ isJsWs c = false := by
  cases b with
  | nil => exact absurd h (by decide)
  | cons c bs =>
    refine ⟨c, bs, rfl, ?_⟩
    have hak : anthropicKeyChars = 'a' :: "nthropic_api_key".data := rfl
    rw [hak, ciStarts_cons, Bool.and_eq_true] at h
    have h1 := h.1
    rw [decide_eq_true_eq] at h1
    have h2 : jsLower c = 'a' := by
      rw [← h1]
      decide
    exact (jsLower_letter c 'a' (by decide) (by decide) h2).2

/-- A pattern of lower-case letters matches only alphanumeric text. -/
theorem ciStarts_letters (p : List Char)
    (hp : ∀ x ∈ p, 97 ≤ x.toNat ∧ x.toNat ≤ 122) :
    ∀ b : List Char, ciStarts p b = true →
      (b.take p.length).all isAlnum = true ∧ (b.take p.length).length =
        p.length := by
  induction p with
  | nil => intro b _; simp
  | cons q ps ih =>
    intro b h
    cases b with
    | nil => exact absurd h (by simp [ciStarts])
    | cons c cs =>
      rw [ciStarts_cons, Bool.and_eq_true] at h
      obtain ⟨h1, h2⟩ := h
      rw [decide_eq_true_eq] at h1
      have hq : jsLower q = q := by
        unfold jsLower
        rw [if_neg (by have := hp q (by simp); omega)]
      rw [hq] at h1
      have hc : isAlnum c = true :=
        (jsLower_letter c q (hp q (by simp)).1 (hp q (by simp)).2
          h1.symm).1
      obtain ⟨ha, hl⟩ := ih (fun x hx => hp x (by simp [hx])) cs h2
      simp only [List.length_cons, List.take_succ_cons, List.all_cons,
        Bool.and_eq_true]
      exact ⟨⟨hc, ha⟩, by simpa using hl⟩

/-- Both `akRedacted` and any text matching the `ANTHROPIC_API_KEY` head
have the nine-alphanumerics-then-non-alphanumeric shape. -/
theorem ciStarts_p9 (b : List Char)
    (h : ciStarts anthropicKeyChars b = true) : p9seg b = true := by
  have hsplit : anthropicKeyChars = "anthropic".data ++ '_' :: "api_key".data := by
    decide
  rw [hsplit] at h
  obtain ⟨h1, h2⟩ := ciStarts_split_pat "anthropic".data ('_' :: "api_key".data) b h
  obtain ⟨ha, hl⟩ := ciStarts_letters "anthropic".data (by decide) b h1
  have hd9 : ∃ c cs, b.drop 9 = c :: cs ∧ isAlnum c = false := by
    cases hb9 : b.drop 9 with
    | nil =>
      rw [show ("anthropic".data.length : Nat) = 9 from rfl, hb9] at h2
      exact absurd h2 (by simp [ciStarts])
    | cons c cs =>
      rw [show ("anthropic".data.length : Nat) = 9 from rfl, hb9] at h2
      rw [show ('_' :: "api_key".data : List Char) =
        '_' :: "api_key".data from rfl, ciStarts_cons, Bool.and_eq_true] at h2
      have hcl : jsLower '_' = jsLower c := by
        have := h2.1
        rwa [decide_eq_true_eq] at this
      have hc : c = '_' := by
        have h3 : jsLower c = '_' := by
          rw [← hcl]
          decide
        exact jsLower_eq_of_not_lcase c '_' (by decide) h3
      exact ⟨c, cs, rfl, by rw [hc]; decide⟩
  obtain ⟨c, cs, hb9, hcna⟩ := hd9
  unfold p9seg
  rw [show ("anthropic".data.length : Nat) = 9 from rfl] at ha hl
  rw [hb9]
  simp only [ha, hl, hcna]
  rfl

/-- Unfolding equation of `checkKey` on three conses. -/
theorem checkKey_cons3 (c1 c2 c3 : Char) (r : List Char) :
    checkKey (c1 :: c2 :: c3 :: r) =
      ((c1 = 's' : Bool) && (c2 = 'k' : Bool) && (c3 = '-' : Bool) &&
        (r.length == 48) && r.all isAlnum) := rfl

/-- Decomposition of the nine-alphanumerics-then-non-alphanumeric shape. -/
theorem p9seg_decomp (z : List Char) (h : p9seg z = true) :
    ∃ p c t, z = p ++ c :: t ∧ p.length = 9 ∧ p.all isAlnum = true ∧
      isAlnum c = false := by
  unfold p9seg at h
  rcases hd : z.drop 9 with _ | ⟨c, t⟩
  · rw [hd] at h
    simp at h
  · rw [hd] at h
    simp only [Bool.and_eq_true, beq_iff_eq] at h
    refine ⟨z.take 9, c, t, ?_, h.1.1, h.1.2, by simpa using h.2⟩
    rw [← hd, List.take_append_drop]

/-- The shape only involves the first ten characters. -/
theorem p9seg_append (x u : List Char) (hlen : 10 ≤ x.length)
    (h : p9seg x = true) : p9seg (x ++ u) = true := by
  obtain ⟨p, c, t, rfl, hp, hall, hc⟩ := p9seg_decomp x h
  unfold p9seg
  have h1 : ((p ++ c :: t) ++ u).take 9 = p := by
    rw [List.append_assoc, ← hp, List.take_left]
  have h2 : ((p ++ c :: t) ++ u).drop 9 = c :: (t ++ u) := by
    rw [List.append_assoc, ← hp, List.drop_left]
    rfl
  rw [h1, h2]
  simp [hp, hall, hc]

/-- `akRedacted` has the shape. -/
theorem p9seg_akRedacted : p9seg akRedacted = true := by decide

/-- All characters after the `sk-` head of a match window are
alphanumeric. -/
theorem checkKey_drop3_alnum (l : List Char) (h : checkKey l = true) :
    ∀ y ∈ l.drop 3, isAlnum y = true := by
  obtain ⟨r, rfl, -, hall⟩ := (checkKey_iff l).mp h
  intro y hy
  exact List.all_eq_true.mp hall y (by simpa using hy)

/-- Two all-alphanumeric tails of equal length are interchangeable for the
window check. -/
theorem checkKey_alnum_tail (x y z : List Char) (hy : y.all isAlnum = true)
    (hz : z.all isAlnum = true) (hl : y.length = z.length) :
    checkKey (x ++ y) = checkKey (x ++ z) := by
  have dash_notin : ∀ (w : List Char), w.all isAlnum = true → '-' ∉ w := by
    intro w hw hmem
    have := List.all_eq_true.mp hw '-' hmem
    exact absurd this (by decide)
  rcases x with _ | ⟨x1, _ | ⟨x2, _ | ⟨x3, xs⟩⟩⟩
  · have h1 : checkKey y = false := by
      rw [Bool.eq_false_iff]
      intro hck
      obtain ⟨r, heq, -, -⟩ := (checkKey_iff y).mp hck
      exact dash_notin y hy (by rw [heq]; simp)
    have h2 : checkKey z = false := by
      rw [Bool.eq_false_iff]
      intro hck
      obtain ⟨r, heq, -, -⟩ := (checkKey_iff z).mp hck
      exact dash_notin z hz (by rw [heq]; simp)
    rw [show ([] : List Char) ++ y = y from rfl,
      show ([] : List Char) ++ z = z from rfl, h1, h2]
  · have h1 : checkKey (x1 :: y) = false := by
      rw [Bool.eq_false_iff]
      intro hck
      obtain ⟨r, heq, -, -⟩ := (checkKey_iff _).mp hck
      have : y = 'k' :: '-' :: r := (List.cons_eq_cons.mp heq).2
      exact dash_notin y hy (by rw [this]; simp)
    have h2 : checkKey (x1 :: z) = false := by
      rw [Bool.eq_false_iff]
      intro hck
      obtain ⟨r, heq, -, -⟩ := (checkKey_iff _).mp hck
      have : z = 'k' :: '-' :: r := (List.cons_eq_cons.mp heq).2
      exact dash_notin z hz (by rw [this]; simp)
    rw [show ([x1] : List Char) ++ y = x1 :: y from rfl,
      show ([x1] : List Char) ++ z = x1 :: z from rfl, h1, h2]
  · have h1 : checkKey (x1 :: x2 :: y) = false := by
      rw [Bool.eq_false_iff]
      intro hck
      obtain ⟨r, heq, -, -⟩ := (checkKey_iff _).mp hck
      have : y = '-' :: r := (List.cons_eq_cons.mp
        (List.cons_eq_cons.mp heq).2).2
      exact dash_notin y hy (by rw [this]; simp)
    have h2 : checkKey (x1 :: x2 :: z) = false := by
      rw [Bool.eq_false_iff]
      intro hck
      obtain ⟨r, heq, -, -⟩ := (checkKey_iff _).mp hck
      have : z = '-' :: r := (List.cons_eq_cons.mp
        (List.cons_eq_cons.mp heq).2).2
      exact dash_notin z hz (by rw [this]; simp)
    rw [show ([x1, x2] : List Char) ++ y = x1 :: x2 :: y from rfl,
      show ([x1, x2] : List Char) ++ z = x1 :: x2 :: z from rfl, h1, h2]
  · show checkKey (x1 :: x2 :: x3 :: (xs ++ y)) =
      checkKey (x1 :: x2 :: x3 :: (xs ++ z))
    rw [checkKey_cons3, checkKey_cons3, List.all_append, List.all_append,
      hy, hz, List.length_append, List.length_append, hl]

/-- Window stability: a 51-character `sk-` window beginning in `x` cannot
distinguish two continuations that both have the
nine-alphanumerics-then-non-alphanumeric shape. -/
theorem checkKey_window_stable (x w w' : List Char)
    (hw : p9seg w = true) (hw' : p9seg w' = true) :
    checkKey ((x ++ w).take 51) = checkKey ((x ++ w').take 51) := by
  by_cases hx : 51 ≤ x.length
  · rw [List.take_append_of_le_length hx, List.take_append_of_le_length hx]
  · push_neg at hx
    have h1 : (x ++ w).take 51 = x ++ w.take (51 - x.length) := by
      conv_lhs => rw [show (51 : Nat) = x.length + (51 - x.length) by omega]
      rw [List.take_append]
    have h1' : (x ++ w').take 51 = x ++ w'.take (51 - x.length) := by
      conv_lhs => rw [show (51 : Nat) = x.length + (51 - x.length) by omega]
      rw [List.take_append]
    rw [h1, h1']
    obtain ⟨p, c, t, rfl, hp, hall, hc⟩ := p9seg_decomp w hw
    obtain ⟨p', c', t', rfl, hp', hall', hc'⟩ := p9seg_decomp w' hw'
    by_cases hk9 : 51 - x.length ≤ 9
    · have e1 : (p ++ c :: t).take (51 - x.length) = p.take (51 - x.length) :=
        List.take_append_of_le_length (by omega)
      have e2 : (p' ++ c' :: t').take (51 - x.length) =
          p'.take (51 - x.length) :=
        List.take_append_of_le_length (by omega)
      rw [e1, e2]
      apply checkKey_alnum_tail
      · rw [List.all_eq_true]
        intro a ha
        exact List.all_eq_true.mp hall a (List.take_subset _ _ ha)
      · rw [List.all_eq_true]
        intro a ha
        exact List.all_eq_true.mp hall' a (List.take_subset _ _ ha)
      · rw [List.length_take, List.length_take, hp, hp']
    · push_neg at hk9
      have key : ∀ (q : List Char) (d : Char) (u : List Char),
          q.length = 9 → isAlnum d = false →
          checkKey (x ++ (q ++ d :: u).take (51 - x.length)) = false := by
        intro q d u hq hd
        have htk : (q ++ d :: u).take (51 - x.length) =
            q ++ d :: u.take (51 - x.length - 10) := by
          conv_lhs => rw [show 51 - x.length =
            q.length + (51 - x.length - 9) by omega]
          rw [List.take_append]
          congr 1
          rw [show 51 - x.length - 9 = (51 - x.length - 10) + 1 by omega,
            List.take_succ_cons]
        rw [htk, Bool.eq_false_iff]
        intro hck
        have hcmem : d ∈ (x ++ (q ++ d :: u.take (51 - x.length - 10))).drop 3 := by
          rw [← List.append_assoc]
          rw [List.drop_append_of_le_length
            (by rw [List.length_append]; omega)]
          simp
        exact absurd (checkKey_drop3_alnum _ hck d hcmem)
          (by rw [hd]; simp)
      rw [key p c t hp hc, key p' c' t' hp' hc']

/-- An AK match at the head in particular matches the pattern head. -/
theorem akTail_some_ciStarts (b : List Char) (m : Nat)
    (h : akTail b = some m) : ciStarts anthropicKeyChars b = true := by
  unfold akTail at h
  by_cases hh : akHeadOK b = true
  · unfold akHeadOK at hh
    rw [Bool.and_eq_true] at hh
    exact hh.1
  · rw [if_neg hh] at h
    exact absurd h (by simp)

/-- Whitespace cannot begin an AK match. -/
theorem akTail_ws_head (c : Char) (cs : List Char) (hws : isJsWs c = true) :
    akTail (c :: cs) = none := by
  unfold akTail
  rw [if_neg]
  intro hh
  unfold akHeadOK at hh
  rw [Bool.and_eq_true] at hh
  obtain ⟨d, bs, heq, hns⟩ := akStart_head _ hh.1
  obtain ⟨rfl, -⟩ := List.cons_eq_cons.mp heq
  rw [hws] at hns
  exact Bool.true_eq_false.mp hns

/-- Structural description of a `replaceAK` output: either the input was
match-free and returned unchanged, or the output is an untouched stretch,
the canonical replacement, and the recursive rest, aligned with a match in
the input. -/
theorem replaceAK_decomp :
    ∀ (N : Nat) (u : List Char), u.length ≤ N →
      replaceAK u = u ∨
      ∃ a b m, u = a ++ b ∧ akTail b = some m ∧
        replaceAK u = a ++ akRedacted ++ replaceAK (b.drop (18 + m)) := by
  intro N
  induction N with
  | zero =>
    intro u hu
    have hnil : u = [] := List.length_eq_zero.mp (Nat.le_zero.mp hu)
    subst hnil
    left
    exact replaceAK_nil
  | succ N ih =>
    intro u hu
    match u with
    | [] => left; exact replaceAK_nil
    | c :: cs =>
      cases hak : akTail (c :: cs) with
      | some m =>
        right
        exact ⟨[], c :: cs, m, rfl, hak, by
          rw [replaceAK_cons_pos c cs m hak]
          rfl⟩
      | none =>
        have hcs : cs.length ≤ N := by
          simp only [List.length_cons] at hu
          omega
        rcases ih cs hcs with heq | ⟨a, b, m, hsplit, hb, hout⟩
        · left
          rw [replaceAK_cons_neg c cs hak, heq]
        · right
          refine ⟨c :: a, b, m, by rw [hsplit]; rfl, hb, ?_⟩
          rw [replaceAK_cons_neg c cs hak, hout]
          rfl

/-- The AK substitution cannot create an `sk-` match: its replacement text
has the same nine-alphanumerics-then-`_` head shape as the text it
replaces, contains no `s`, and a 51-character window cannot tell the two
apart. -/
theorem hasSk_replaceAK :
    ∀ (N : Nat) (u : List Char), u.length ≤ N → hasSk u = false →
      hasSk (replaceAK u) = false := by
  intro N
  induction N with
  | zero =>
    intro u hu _
    have hnil : u = [] := List.length_eq_zero.mp (Nat.le_zero.mp hu)
    subst hnil
    rw [replaceAK_nil]
    rfl
  | succ N ih =>
    intro u hu h
    match u with
    | [] => rw [replaceAK_nil]; rfl
    | c :: cs =>
      have h2 : (checkKey ((c :: cs).take 51) || hasSk cs) = false := h
      simp only [Bool.or_eq_false_iff] at h2
      cases hak : akTail (c :: cs) with
      | some m =>
        rw [replaceAK_cons_pos c cs m hak]
        rw [noS_append _ _ (by decide)]
        refine ih _ ?_ (hasSk_drop (c :: cs) h (18 + m))
        rw [List.length_drop]
        simp only [List.length_cons] at hu ⊢
        omega
      | none =>
        rw [replaceAK_cons_neg c cs hak]
        have hcs : cs.length ≤ N := by
          simp only [List.length_cons] at hu
          omega
        have htail : hasSk (replaceAK cs) = false := ih cs hcs h2.2
        show (checkKey ((c :: replaceAK cs).take 51) ||
          hasSk (replaceAK cs)) = false
        rw [htail, Bool.or_false]
        rcases replaceAK_decomp N cs hcs with heq | ⟨a, b, mb, hsplit, hb, hout⟩
        · rw [heq]
          exact h2.1
        · rw [hout]
          have hstep : checkKey ((c :: (a ++ akRedacted ++
              replaceAK (b.drop (18 + mb)))).take 51) =
              checkKey (((c :: a) ++ b).take 51) := by
            rw [show c :: (a ++ akRedacted ++ replaceAK (b.drop (18 + mb))) =
              (c :: a) ++ (akRedacted ++ replaceAK (b.drop (18 + mb))) by
                simp]
            exact checkKey_window_stable (c :: a) _ b
              (p9seg_append akRedacted _ (by decide) p9seg_akRedacted)
              (ciStarts_p9 b (akTail_some_ciStarts b mb hb))
          rw [hstep]
          rw [show (c :: a) ++ b = c :: (a ++ b) from rfl, ← hsplit]
          exact h2.1

/-- Appending to an all-satisfying block commutes with `takeWhile`. -/
theorem takeWhile_append_all (q : Char → Bool) (x u : List Char)
    (hx : x.all q = true) :
    (x ++ u).takeWhile q = x ++ u.takeWhile q := by
  induction x with
  | nil => rfl
  | cons c cs ih =>
    rw [List.all_cons, Bool.and_eq_true] at hx
    rw [List.cons_append, List.takeWhile_cons, if_pos hx.1, ih hx.2]
    rfl

/-- What follows a consumed AK match starts with whitespace, if anything. -/
theorem akTail_some_rest (v : List Char) (m : Nat) (h : akTail v = some m) :
    ∀ c, (v.drop (18 + m)).head? = some c → isJsWs c = true := by
  have hh : akHeadOK v = true := by
    by_contra hcon
    unfold akTail at h
    rw [if_neg hcon] at h
    exact absurd h (by simp)
  unfold akTail at h
  rw [if_pos hh] at h
  simp only [] at h
  set r := v.drop 18 with hrdef
  set w := (r.takeWhile isJsWs).length with hwdef
  set n := ((r.drop w).takeWhile (fun x => !isJsWs x)).length with hndef
  by_cases hn : n = 0
  · rw [if_pos hn] at h
    exact absurd h (by simp)
  · rw [if_neg hn] at h
    have hm : m = w + n := (Option.some.inj h).symm
    intro c hc
    rw [hm] at hc
    have hdrop : v.drop (18 + (w + n)) = (r.drop w).drop n := by
      rw [hrdef, List.drop_drop, List.drop_drop]
      try (congr 1; omega)
    have hq2 : (r.drop w).drop n =
        (r.drop w).dropWhile (fun x => !isJsWs x) := by
      rw [hndef, drop_len_takeWhile]
    rw [hdrop, hq2] at hc
    cases hdw : (r.drop w).dropWhile (fun x => !isJsWs x) with
    | nil => rw [hdw] at hc; simp at hc
    | cons d rest =>
      rw [hdw] at hc
      have hfail := dropWhile_head_not _ _ _ _ hdw
      have hcd : d = c := by simpa using hc
      rw [← hcd]
      simpa using hfail

/-- The canonical replacement followed by whitespace-or-nothing is itself an
AK match of exactly its own length, so replacing it reproduces it. -/
theorem akTail_canonical (u : List Char)
    (hu : u = [] ∨ ∃ c cs, u = c :: cs ∧ isJsWs c = true) :
    akTail (akRedacted ++ u) = some 18 ∧ (akRedacted ++ u).drop 36 = u := by
  have hwq : u.takeWhile (fun x => !isJsWs x) = [] := by
    rcases hu with rfl | ⟨c, cs, rfl, hws⟩
    · rfl
    · rw [List.takeWhile_cons, if_neg (by simp [hws])]
  constructor
  · have hh : akHeadOK (akRedacted ++ u) = true := by
      unfold akHeadOK
      rw [Bool.and_eq_true]
      constructor
      · rw [ciStarts_append_right anthropicKeyChars akRedacted u (by decide)]
        decide
      · rw [List.drop_append_of_le_length (by decide)]
        rw [show akRedacted.drop 17 = '=' :: redactedKey by decide]
        simp
    unfold akTail
    rw [if_pos hh]
    have hr : (akRedacted ++ u).drop 18 = redactedKey ++ u := by
      rw [List.drop_append_of_le_length (by decide)]
      rw [show List.drop 18 akRedacted = redactedKey by decide]
    simp only [hr]
    have hw0 : ((redactedKey ++ u).takeWhile isJsWs).length = 0 := by
      rw [show redactedKey ++ u = '[' :: ("API_KEY_REDACTED]".data ++ u)
        from rfl]
      rw [List.takeWhile_cons, if_neg (by decide)]
      rfl
    rw [hw0]
    have hn18 : ((redactedKey ++ u).drop 0).takeWhile
        (fun x => !isJsWs x) = redactedKey := by
      rw [List.drop_zero, takeWhile_append_all _ _ _ (by decide), hwq]
      simp
    rw [hn18]
    rw [if_neg (by decide)]
    rfl
  · rw [show (36 : Nat) = akRedacted.length by decide, List.drop_left]

/-- `replaceAK` preserves the whitespace-or-nothing head shape. -/
theorem replaceAK_ws_head (v : List Char)
    (hv : v = [] ∨ ∃ c cs, v = c :: cs ∧ isJsWs c = true) :
    replaceAK v = [] ∨
      ∃ c cs, replaceAK v = c :: cs ∧ isJsWs c = true := by
  rcases hv with rfl | ⟨c, cs, rfl, hws⟩
  · left
    exact replaceAK_nil
  · right
    exact ⟨c, replaceAK cs, by rw [replaceAK_cons_neg c cs
      (akTail_ws_head c cs hws)], hws⟩

/-- No proper suffix of the `ANTHROPIC_API_KEY` pattern matches the head of
the canonical replacement text. -/
theorem pAK_no_self_overlap :
    ∀ m0, m0 < 17 → 1 ≤ m0 →
      ciStarts (anthropicKeyChars.drop m0) akRedacted = false := by
  decide

/-- Replacing a later AK match cannot create a fresh AK match one position
earlier: the head shape either was already decided by untouched text, or
runs into the canonical replacement, whose head cannot continue the
pattern. -/
theorem akTail_none_stable (d : Char) (v : List Char) (N : Nat)
    (hN : v.length ≤ N) (h : akTail (d :: v) = none) :
    akTail (d :: replaceAK v) = none := by
  rcases replaceAK_decomp N v hN with heq | ⟨a, b, mb, hsplit, hb, hout⟩
  · rw [heq]
    exact h
  · rw [hout]
    have hX : d :: (a ++ akRedacted ++ replaceAK (b.drop (18 + mb))) =
        (d :: a) ++ (akRedacted ++ replaceAK (b.drop (18 + mb))) := by
      simp
    have hY : d :: v = (d :: a) ++ b := by
      rw [hsplit]
      rfl
    by_cases hlen : 18 ≤ (d :: a).length
    · rw [← Option.not_isSome_iff_eq_none]
      intro hs
      rw [Option.isSome_iff_exists] at hs
      obtain ⟨mx, hmx⟩ := hs
      have hs2 : (akTail (d :: (a ++ akRedacted ++
          replaceAK (b.drop (18 + mb))))).isSome = true := by
        rw [hmx]
        rfl
      obtain ⟨hhead, -⟩ := (akTail_isSome_iff _).mp hs2
      have htake : ((d :: a) ++ (akRedacted ++
          replaceAK (b.drop (18 + mb)))).take 18 =
          ((d :: a) ++ b).take 18 := by
        rw [List.take_append_of_le_length hlen,
          List.take_append_of_le_length hlen]
      have hheadY : akHeadOK ((d :: a) ++ b) = true := by
        rw [← akHeadOK_take18 _ _ htake, ← hX]
        exact hhead
      obtain ⟨c0, bs, hbeq, hbns⟩ :=
        akStart_head b (akTail_some_ciStarts b mb hb)
      have hanyY : (((d :: a) ++ b).drop 18).any
          (fun c => !isJsWs c) = true := by
        rw [List.drop_append_of_le_length hlen]
        refine List.any_eq_true.mpr ⟨c0, ?_, by
          show (!isJsWs c0) = true
          rw [hbns]
          rfl⟩
        rw [hbeq]
        simp
      have : (akTail ((d :: a) ++ b)).isSome = true :=
        (akTail_isSome_iff _).mpr ⟨hheadY, hanyY⟩
      rw [← hY] at this
      rw [h] at this
      exact absurd this (by simp)
    · push_neg at hlen
      have hhx : akHeadOK (d :: (a ++ akRedacted ++
          replaceAK (b.drop (18 + mb)))) = false := by
        rw [hX]
        by_cases h17 : (d :: a).length = 17
        · unfold akHeadOK
          have hdrop : (((d :: a) ++ (akRedacted ++
              replaceAK (b.drop (18 + mb)))).drop 17).head? = some 'A' := by
            rw [← h17, List.drop_left]
            rw [show akRedacted = 'A' :: "NTHROPIC_API_KEY=[API_KEY_REDACTED]".data
              from rfl]
            rfl
          rw [hdrop]
          simp
        · have hle16 : (d :: a).length ≤ 16 := by omega
          unfold akHeadOK
          have hci : ciStarts anthropicKeyChars ((d :: a) ++ (akRedacted ++
              replaceAK (b.drop (18 + mb)))) = false := by
            rw [Bool.eq_false_iff]
            intro hci
            have hsp := ciStarts_split_text (d :: a) anthropicKeyChars _ hci
            have hlen2 : (anthropicKeyChars.drop (d :: a).length).length ≤
                akRedacted.length := by
              rw [List.length_drop]
              rw [show anthropicKeyChars.length = 17 by decide,
                show akRedacted.length = 36 by decide]
              omega
            rw [ciStarts_append_right _ _ _ hlen2] at hsp
            have hfalse := pAK_no_self_overlap (d :: a).length
              (by omega) (by simp)
            rw [hfalse] at hsp
            exact Bool.false_ne_true hsp
          rw [hci]
          rfl
      unfold akTail
      rw [if_neg (by rw [hhx]; exact Bool.false_ne_true)]

/-- The AK substitution is idempotent: its output's only matches are
canonical replacements, which map to themselves. -/
theorem replaceAK_idem :
    ∀ (N : Nat) (u : List Char), u.length ≤ N →
      replaceAK (replaceAK u) = replaceAK u := by
  intro N
  induction N with
  | zero =>
    intro u hu
    have hnil : u = [] := List.length_eq_zero.mp (Nat.le_zero.mp hu)
    subst hnil
    rw [replaceAK_nil, replaceAK_nil]
  | succ N ih =>
    intro u hu
    match u with
    | [] => rw [replaceAK_nil, replaceAK_nil]
    | c :: cs =>
      cases hak : akTail (c :: cs) with
      | some m =>
        rw [replaceAK_cons_pos c cs m hak]
        have hdlen : ((c :: cs).drop (18 + m)).length ≤ N := by
          rw [List.length_drop]
          simp only [List.length_cons] at hu ⊢
          omega
        have hfix : replaceAK (replaceAK ((c :: cs).drop (18 + m))) =
            replaceAK ((c :: cs).drop (18 + m)) := ih _ hdlen
        have hshape : (c :: cs).drop (18 + m) = [] ∨
            ∃ c0 cs0, (c :: cs).drop (18 + m) = c0 :: cs0 ∧
              isJsWs c0 = true := by
          cases hrest : (c :: cs).drop (18 + m) with
          | nil => left; rfl
          | cons c0 cs0 =>
            right
            refine ⟨c0, cs0, rfl, ?_⟩
            apply akTail_some_rest (c :: cs) m hak c0
            rw [hrest]
            rfl
        have hwshape := replaceAK_ws_head _ hshape
        obtain ⟨hcan1, hcan2⟩ :=
          akTail_canonical (replaceAK ((c :: cs).drop (18 + m))) hwshape
        have hsplitA : akRedacted ++ replaceAK ((c :: cs).drop (18 + m)) =
            'A' :: ("NTHROPIC_API_KEY=[API_KEY_REDACTED]".data ++
              replaceAK ((c :: cs).drop (18 + m))) := rfl
        rw [hsplitA] at hcan1 hcan2 ⊢
        rw [replaceAK_cons_pos _ _ 18 hcan1]
        rw [show (18 + 18 : Nat) = 36 from rfl, hcan2, hfix]
        rw [← hsplitA]
      | none =>
        have hcs : cs.length ≤ N := by
          simp only [List.length_cons] at hu
          omega
        rw [replaceAK_cons_neg c cs hak]
        rw [replaceAK_cons_neg c (replaceAK cs)
          (akTail_none_stable c cs N hcs hak)]
        rw [ih cs hcs]

/-- An input with no AK match anywhere is a fixed point of the AK
substitution. -/
theorem replaceAK_fixed :
    ∀ (N : Nat) (u : List Char), u.length ≤ N → hasAk u = false →
      replaceAK u = u := by
  intro N
  induction N with
  | zero =>
    intro u hu _
    have hnil : u = [] := List.length_eq_zero.mp (Nat.le_zero.mp hu)
    subst hnil
    exact replaceAK_nil
  | succ N ih =>
    intro u hu h
    match u with
    | [] => exact replaceAK_nil
    | c :: cs =>
      have h2 : ((akTail (c :: cs)).isSome || hasAk cs) = false := h
      simp only [Bool.or_eq_false_iff] at h2
      have hnone : akTail (c :: cs) = none :=
        Option.not_isSome_iff_eq_none.mp (by rw [h2.1]; exact
          Bool.false_ne_true)
      rw [replaceAK_cons_neg c cs hnone]
      have hcs : cs.length ≤ N := by
        simp only [List.length_cons] at hu
        omega
      rw [ih cs hcs h2.2]

/-- C7: `sanitizeOutput` is idempotent on every input (in particular on
inputs made of the documented secret shapes): re-applying the API-key and
`ANTHROPIC_API_KEY`-assignment substitutions to already-redacted text
leaves it unchanged. -/
theorem sanitizeOutput_idem (s : String) :
    sanitizeOutput (sanitizeOutput s) = sanitizeOutput s := by
  unfold sanitizeOutput
  by_cases h0 : s.data.isEmpty = true
  · rw [if_pos h0, if_pos h0]
  · rw [if_neg h0]
    by_cases hX : (String.mk (replaceAK (replaceSk s.data))).data.isEmpty = true
    · rw [if_pos hX]
    · rw [if_neg hX]
      have h1 : hasSk (replaceSk s.data) = false :=
        hasSk_replaceSk s.data.length s.data le_rfl
      have h2 : hasSk (replaceAK (replaceSk s.data)) = false :=
        hasSk_replaceAK (replaceSk s.data).length (replaceSk s.data)
          le_rfl h1
      show String.mk (replaceAK (replaceSk
        (replaceAK (replaceSk s.data)))) = _
      rw [replaceSk_fixed (replaceAK (replaceSk s.data)).length _ le_rfl h2]
      rw [replaceAK_idem (replaceSk s.data).length _ le_rfl]

/-- C4 counterexample: `sanitizeOutput` applied to a string that contains a
test-user e-mail address returns it unchanged, e-mail included — the
function never consults the configured credentials and substitutes no
e-mail shape. -/
theorem sanitize_keeps_email :
    sanitizeOutput "Email: user@example.com" = "Email: user@example.com" ∧
    jsIncludes "Email: user@example.com" "user@example.com" = true := by
  constructor
  · unfold sanitizeOutput
    rw [if_neg (by decide)]
    rw [replaceSk_fixed "Email: user@example.com".data.length _ le_rfl
      (by decide)]
    rw [replaceAK_fixed "Email: user@example.com".data.length _ le_rfl
      (by decide)]
  · decide

/-- C4 as amended: `sanitizeOutput` redacts the API-key shapes — its output
never contains an `sk-`-key match — but substitutes nothing else: any input
free of the two key shapes (e-mail addresses included) is returned
verbatim. -/
theorem sanitize_only_api_keys :
    (∀ s : String, hasSk (sanitizeOutput s).data = false) ∧
    (∀ s : String, hasSk s.data = false → hasAk s.data = false →
      sanitizeOutput s = s) := by
  constructor
  · intro s
    unfold sanitizeOutput
    by_cases h0 : s.data.isEmpty = true
    · rw [if_pos h0]
      rw [List.isEmpty_iff] at h0
      rw [h0]
      rfl
    · rw [if_neg h0]
      exact hasSk_replaceAK (replaceSk s.data).length _ le_rfl
        (hasSk_replaceSk s.data.length s.data le_rfl)
  · intro s h1 h2
    unfold sanitizeOutput
    by_cases h0 : s.data.isEmpty = true
    · rw [if_pos h0]
    · rw [if_neg h0]
      rw [replaceSk_fixed s.data.length _ le_rfl h1]
      rw [replaceAK_fixed s.data.length _ le_rfl h2]

/-- Witness for the amended C4 on a configured-credentials-looking text. -/
theorem sanitize_only_api_keys_witness :
    sanitizeOutput "login as qa-bot@testmail.example please" =
      "login as qa-bot@testmail.example please" :=
  sanitize_only_api_keys.2 "login as qa-bot@testmail.example please"
    (by decide) (by decide)
